import Mathlib

/-!
Shallow embedding of the callcoach-fullstack backend (three JS variants:
`src/server.js` with a persisted JSON store, `src/unnamed/part_000` with the
in-memory Gemini flow, `src/unnamed/part_001` with the mock flow), together
with theorems settling the frozen claims about the response-normalization
pipeline, the script registry and the call store.

JSON values decoded by `JSON.parse` are modelled by the inductive `Json`
below, with numbers as rationals (JSON numerals are exact decimal literals;
none of the properties below depend on binary floating-point rounding).
`JSON.parse` itself is an external runtime primitive: fallible parsing is
modelled by an abstract `String → Option Json` parameter, `none` standing
for a parse exception (which `safeParseJson` in part_000 turns into `null`).
-/

namespace CallCoach

/-- A JSON value as produced by `JSON.parse`. `none` in an `Option Json`
models JavaScript `undefined` (a missing property), `Json.null` models a
present `null`. -/
inductive Json where
  | null
  | bool (b : Bool)
  | num (q : ℚ)
  | str (s : String)
  | arr (elems : List Json)
  | obj (fields : List (String × Json))
deriving Repr

/-- First-match association-list lookup for object properties. -/
def lookupField (k : String) : List (String × Json) → Option Json
  | [] => none
  | (k', v) :: rest => if k' = k then some v else lookupField k rest

/-- JavaScript property access `j.k`: `none` (undefined) when `j` is not an
object or lacks the property. -/
def Json.get : Json → String → Option Json
  | .obj fs, k => lookupField k fs
  | _, _ => none

/-- JavaScript falsiness of a JSON-decoded value: `null`, `false`, `0` and
the empty string are falsy; arrays and objects are always truthy. -/
def jsFalsy : Json → Bool
  | .null => true
  | .bool b => !b
  | .num q => q == 0
  | .str s => s == ""
  | .arr _ => false
  | .obj _ => false

/-- JavaScript nullish coalescing `a ?? b` applied to a property-access
result: the default is taken exactly when the property is absent
(`undefined`) or `null`. -/
def nn : Option Json → Json → Json
  | none, b => b
  | some .null, b => b
  | some v, _ => v

/-- JavaScript or-default `a || b` applied to a property-access result: the
default is taken when the property is absent or its value falsy. -/
def jsOr : Option Json → Json → Json
  | none, b => b
  | some v, b => if jsFalsy v then b else v

/-- JavaScript or-default `a || b` on an optional string (absent or empty
gives the default). -/
def jsOrS : Option String → String → String
  | none, b => b
  | some v, b => if v = "" then b else v

/-- JavaScript `x >= c` for a JSON-decoded value against a numeric
threshold. The numeric case is exact. A non-numeric operand coerces through
`ToNumber` in JS; we map those comparisons to `false` (the NaN outcome);
every theorem below either applies this function to `Json.num` values or is
insensitive to the outcome of the non-numeric branch. -/
def jsGE (v : Json) (c : ℚ) : Bool :=
  match v with
  | .num q => decide (c ≤ q)
  | _ => false

/-! ## part_000: analyzeWithGemini — fallback record and field-level repair -/

/-- The shape of the record `analyzeWithGemini` (part_000, lines 46-181)
returns: every schema field carries whatever JSON value survived the
repair, except `scriptAdherence`, which the code always computes as a
number, and `raw`, which is `null` or the raw response text. -/
structure NormRecord where
  qualityScore : Json
  appointmentOutcome : Json
  conversionLikelihood : Json
  scriptAdherence : ℚ
  skills : Json
  coachingSummary : Json
  callTimeline : Json
  keyObjections : Json
  strengths : Json
  improvements : Json
  coachingPlan : Json
  recommendedPhrases : Json
  phrasesToAvoid : Json
  raw : Option String
deriving Repr

/-- The fallback record of `analyzeWithGemini` (part_000, lines 47-82). -/
def fallback : NormRecord where
  qualityScore := .num 78
  appointmentOutcome := .str "FollowUp"
  conversionLikelihood := .str "Medium"
  scriptAdherence := 0.75
  skills := .obj [("discovery", .num 80), ("objectionHandling", .num 65),
    ("closing", .num 70), ("rapport", .num 90)]
  coachingSummary :=
    .str "Good rapport. Improve discovery questions and make the closing clearer."
  callTimeline := .arr [
    .obj [("label", .str "Script Adherence"),
      ("description", .str "Good opening and value statement.")],
    .obj [("label", .str "Objection"),
      ("description", .str "Client raised price concerns mid-call.")]]
  keyObjections := .arr [.str "Price sensitivity"]
  strengths := .arr [.str "Warm tone and rapport",
    .str "Clear explanation of benefits"]
  improvements := .arr [.str "Ask more open-ended discovery questions"]
  coachingPlan := .arr [.str "Roleplay 3 common price objections.",
    .str "Practice summarizing benefits before revealing price."]
  recommendedPhrases :=
    .arr [.str "What would make this valuable enough for you to test it for a month?"]
  phrasesToAvoid := .arr [.str "It\x27s just our standard package."]
  raw := none

/-- The response-normalization tail of `analyzeWithGemini` (part_000, lines
147-176). `parsed` is the result of `safeParseJson(text)`: `none` models the
`null` that a `JSON.parse` exception is turned into. The `if (!json)` guard
in the source also fires on successfully parsed falsy values (`null`, `0`,
`false`, `""`), hence the `jsFalsy` branch. Each schema field is repaired
with nullish coalescing against `fallback`; `scriptAdherencePercent` alone
is type-checked (`typeof === "number"`) and divided by 100. -/
def analyzeWithGemini (parsed : Option Json) (text : String) : NormRecord :=
  match parsed with
  | none => { fallback with raw := some text }
  | some json =>
    if jsFalsy json then { fallback with raw := some text }
    else
      let scriptAdhPct : ℚ :=
        match json.get "scriptAdherencePercent" with
        | some (.num q) => q
        | _ => 100 * fallback.scriptAdherence
      { qualityScore := nn (json.get "qualityScore") fallback.qualityScore
        appointmentOutcome :=
          nn (json.get "appointmentOutcome") fallback.appointmentOutcome
        conversionLikelihood :=
          nn (json.get "conversionLikelihood") fallback.conversionLikelihood
        scriptAdherence := scriptAdhPct / 100
        skills := nn (json.get "skills") fallback.skills
        coachingSummary := nn (json.get "coachingSummary") fallback.coachingSummary
        callTimeline := nn (json.get "callTimeline") fallback.callTimeline
        keyObjections := nn (json.get "keyObjections") fallback.keyObjections
        strengths := nn (json.get "strengths") fallback.strengths
        improvements := nn (json.get "improvements") fallback.improvements
        coachingPlan := nn (json.get "coachingPlan") fallback.coachingPlan
        recommendedPhrases :=
          nn (json.get "recommendedPhrases") fallback.recommendedPhrases
        phrasesToAvoid := nn (json.get "phrasesToAvoid") fallback.phrasesToAvoid
        raw := some text }

/-! ## server.js: stripJson (lines 63-66)

`stripJson` is `code.replace(-- ```json --, "").replace(-- ``` --, "").trim()`
with the first regex global and case-insensitive. A regex of literal
characters is a sequence of character alternatives; `removeAll` is the
global-replace-by-empty scan: left to right, non-overlapping, never
rescanning emitted text. Characters are compared exactly; the backtick is
written by code point. `trim` is modelled on the ASCII whitespace
characters `Char.isWhitespace` covers. -/

/-- The backtick character. -/
def btk : Char := Char.ofNat 96

/-- A regex of literal character alternatives, one set per position. -/
abbrev CPat := List (List Char)

/-- The three-backtick fence. -/
def fencePat : CPat := [[btk], [btk], [btk]]

/-- The case-insensitive "json" language tag. -/
def jsonTagPat : CPat := [['j', 'J'], ['s', 'S'], ['o', 'O'], ['n', 'N']]

/-- The fenced-json opener: the fence followed by the tag in either case. -/
def fenceJsonPat : CPat := fencePat ++ jsonTagPat

/-- Match `pat` against the start of `s`; the remainder on success. -/
def matchPat : CPat → List Char → Option (List Char)
  | [], s => some s
  | _ :: _, [] => none
  | cl :: pat, c :: s => if c ∈ cl then matchPat pat s else none

/-- Global replace-by-empty: scan left to right, drop each non-overlapping
match (a successful match of `pat` consumes exactly `pat.length`
characters), never rescan emitted text. -/
def removeAll (pat : CPat) (s : List Char) : List Char :=
  match s with
  | [] => []
  | c :: t =>
    match pat, matchPat pat (c :: t) with
    | _ :: pat', some _ => removeAll pat (t.drop pat'.length)
    | _, _ => c :: removeAll pat t
termination_by s.length
decreasing_by
  all_goals simp [List.length_drop]
  omega

/-- Does `pat` match at some position of `s`? -/
def hasMatch (pat : CPat) : List Char → Bool
  | [] => (matchPat pat []).isSome
  | c :: t => (matchPat pat (c :: t)).isSome || hasMatch pat t

/-- Does the text contain a code-fence marker anywhere? -/
def hasFence (s : List Char) : Bool := hasMatch fencePat s

/-- `String.prototype.trim`: drop whitespace from both ends. -/
def trimChars (s : List Char) : List Char :=
  ((s.dropWhile Char.isWhitespace).reverse.dropWhile Char.isWhitespace).reverse

/-- `stripJson` (server.js lines 63-66): remove every case-insensitive
json-fence opener, then every remaining fence, then trim. -/
def stripJson (s : List Char) : List Char :=
  trimChars (removeAll fencePat (removeAll fenceJsonPat s))

/-- `stripJson` on strings. -/
def stripJsonS (s : String) : String := String.mk (stripJson s.data)

/-- The JSON-typed schema fields of a normalized record, selected by field
name (used to state the per-field repair uniformly over the schema). -/
def NormRecord.fieldVal (r : NormRecord) : String → Option Json
  | "qualityScore" => some r.qualityScore
  | "appointmentOutcome" => some r.appointmentOutcome
  | "conversionLikelihood" => some r.conversionLikelihood
  | "skills" => some r.skills
  | "coachingSummary" => some r.coachingSummary
  | "callTimeline" => some r.callTimeline
  | "keyObjections" => some r.keyObjections
  | "strengths" => some r.strengths
  | "improvements" => some r.improvements
  | "coachingPlan" => some r.coachingPlan
  | "recommendedPhrases" => some r.recommendedPhrases
  | "phrasesToAvoid" => some r.phrasesToAvoid
  | _ => none

/-- The schema fields the normalizer repairs with `??` against the fallback
(every expected field except the specially handled `scriptAdherencePercent`). -/
def normJsonFields : List String :=
  ["qualityScore", "appointmentOutcome", "conversionLikelihood", "skills",
   "coachingSummary", "callTimeline", "keyObjections", "strengths",
   "improvements", "coachingPlan", "recommendedPhrases", "phrasesToAvoid"]

/-- A property-access result that `??` replaces: absent or null. -/
def isNullish (o : Option Json) : Prop := o = none ∨ o = some Json.null

/-! ## Sentiment derivation (part_000 lines 212-214, part_001 lines 37-39) -/

/-- The threshold chain on a numeric quality score: start from
"Needs Improvement", overwrite with "Positive" at 85 and "Neutral" at 75. -/
def deriveSentiment (q : ℚ) : String :=
  if 85 ≤ q then "Positive" else if 75 ≤ q then "Neutral"
  else "Needs Improvement"

/-- The same chain as executed in part_000, where `ai.qualityScore` is
whatever JSON value survived the repair. -/
def deriveSentimentJ (v : Json) : String :=
  if jsGE v 85 then "Positive" else if jsGE v 75 then "Neutral"
  else "Needs Improvement"

/-! ## part_000: the /upload call record (lines 206-240) -/

/-- The record `app.post("/upload")` stores in part_000. -/
structure UploadRecord where
  id : Nat
  agentName : String
  notes : String
  transcript : String
  filename : String
  qualityScore : Json
  sentiment : String
  appointmentOutcome : Json
  conversionLikelihood : Json
  scriptAdherence : ℚ
  skills : Json
  coachingSummary : Json
  callTimeline : Json
  keyObjections : Json
  strengths : Json
  improvements : Json
  coachingPlan : Json
  recommendedPhrases : Json
  phrasesToAvoid : Json
  createdAt : String
deriving Repr

/-- Build the /upload record (part_000 lines 210-237): `ai` is what
`analyzeWithGemini` returned, `nCalls` the current store length, `file`
the uploaded file name when present, `now` the creation timestamp. -/
def mkUploadRecord (nCalls : Nat) (agentName notes transcript : Option String)
    (file : Option String) (now : String) (ai : NormRecord) : UploadRecord where
  id := nCalls + 1
  agentName := jsOrS agentName "Unknown"
  notes := jsOrS notes ""
  transcript := jsOrS transcript ""
  filename := match file with | some f => f | none => "No file"
  qualityScore := ai.qualityScore
  sentiment := deriveSentimentJ ai.qualityScore
  appointmentOutcome := ai.appointmentOutcome
  conversionLikelihood := ai.conversionLikelihood
  scriptAdherence := ai.scriptAdherence
  skills := ai.skills
  coachingSummary := ai.coachingSummary
  callTimeline := ai.callTimeline
  keyObjections := ai.keyObjections
  strengths := ai.strengths
  improvements := ai.improvements
  coachingPlan := ai.coachingPlan
  recommendedPhrases := ai.recommendedPhrases
  phrasesToAvoid := ai.phrasesToAvoid
  createdAt := now

/-! ## The call store

Both in-memory variants keep `calls` in a plain list and prepend with
`calls.unshift(record)` (part_000 line 240, part_001 line 53, server.js
line 245 on the persisted document); `GET /api/calls` returns the list as
stored. -/

/-- `calls.unshift(record)`: prepend, newest first. -/
def callsUnshift {α : Type} (calls : List α) (r : α) : List α := r :: calls

/-- `GET /api/calls` / `res.json(calls)`: the stored sequence. -/
def getCalls {α : Type} (calls : List α) : List α := calls

/-! ## server.js: the script registry (lines 28-53 and 98-113) -/

/-- A stored script. -/
structure Script where
  id : String
  name : String
  active : Bool
  content : String
deriving Repr, DecidableEq

/-- The body of `PUT /api/scripts/:id`; a field is `some` exactly when the
request supplied it with the type the handler checks for (`typeof content
=== "string"` etc.). -/
structure UpdateBody where
  content : Option String
  name : Option String
  active : Option Bool

/-- The content/name updates applied to the found script (lines 104-105). -/
def applyBody (b : UpdateBody) (s : Script) : Script :=
  let s1 := match b.content with
    | some c => { s with content := c }
    | none => s
  match b.name with
  | some n => { s1 with name := n }
  | none => s1

/-- `data.scripts.forEach((s) => (s.active = false))` (line 107). -/
def deactivateAll (l : List Script) : List Script :=
  l.map fun s => { s with active := false }

/-- The effect of the handler when `active` is a boolean `v`: the first
script whose id matches is updated (content/name, then `active = v`); every
other script is deactivated; `none` when no script matches (404, store
untouched). -/
def putScriptActive (v : Bool) (b : UpdateBody) (i : String) :
    List Script → Option (List Script)
  | [] => none
  | s :: rest =>
    if s.id = i then some ({ applyBody b s with active := v } :: deactivateAll rest)
    else
      match putScriptActive v b i rest with
      | none => none
      | some l => some ({ s with active := false } :: l)

/-- The effect of the handler when the body carries no boolean `active`:
only the first matching script changes (content/name). -/
def putScriptPlain (b : UpdateBody) (i : String) :
    List Script → Option (List Script)
  | [] => none
  | s :: rest =>
    if s.id = i then some (applyBody b s :: rest)
    else
      match putScriptPlain b i rest with
      | none => none
      | some l => some (s :: l)

/-- `PUT /api/scripts/:id` (server.js lines 98-113) on the scripts list:
`none` models the 404 reply (no write happens). -/
def putScript (scripts : List Script) (i : String) (b : UpdateBody) :
    Option (List Script) :=
  match b.active with
  | some v => putScriptActive v b i scripts
  | none => putScriptPlain b i scripts

/-- Is a script with this id present? -/
def hasId (i : String) (scripts : List Script) : Bool :=
  scripts.any fun s => s.id = i

/-- How many scripts are active. -/
def activeCount (l : List Script) : Nat :=
  (l.filter fun s => s.active).length

/-! ## server.js: the analyze endpoint (lines 119-259) -/

/-- `summarizeAppointmentLikelihood` (server.js lines 68-73), applied to the
JSON value `analysis.conversionLikelihoodScore ?? 0`. -/
def summarizeAppointmentLikelihood (v : Json) : String :=
  if jsGE v 80 then "Very high"
  else if jsGE v 60 then "High"
  else if jsGE v 40 then "Medium"
  else "Low"

/-- The record `POST /api/calls/analyze` stores (server.js lines 221-243). -/
structure CallRecord where
  id : String
  createdAt : String
  agentName : String
  notes : String
  transcript : String
  sentiment : Json
  qualityScore : Json
  conversionLikelihoodScore : Json
  conversionLikelihoodText : String
  scriptAdherenceScore : Json
  scriptAdherenceSummary : Json
  timeline : Json
  keyObjections : Json
  improvementAreas : Json
  coachingPlan : Json
  appointmentRecommendation : Json
  raw : Json
deriving Repr

/-- Build the analyze record from the parsed analysis (server.js lines
221-243): `sentiment` and the free-text/list fields use `||` defaults, the
scores use `??`. -/
def mkCallRecord (id now agent notes transcript : String) (analysis : Json) :
    CallRecord where
  id := id
  createdAt := now
  agentName := agent
  notes := notes
  transcript := transcript
  sentiment := jsOr (analysis.get "sentiment") (.str "Unknown")
  qualityScore := nn (analysis.get "qualityScore") (.num 0)
  conversionLikelihoodScore := nn (analysis.get "conversionLikelihoodScore") (.num 0)
  conversionLikelihoodText :=
    summarizeAppointmentLikelihood (nn (analysis.get "conversionLikelihoodScore") (.num 0))
  scriptAdherenceScore := nn (analysis.get "scriptAdherenceScore") (.num 0)
  scriptAdherenceSummary := jsOr (analysis.get "scriptAdherenceSummary") (.str "")
  timeline := jsOr (analysis.get "timeline") (.arr [])
  keyObjections := jsOr (analysis.get "keyObjections") (.arr [])
  improvementAreas := jsOr (analysis.get "improvementAreas") (.arr [])
  coachingPlan := jsOr (analysis.get "coachingPlan") (.arr [])
  appointmentRecommendation := jsOr (analysis.get "appointmentRecommendation") (.str "")
  raw := analysis

/-- The body fields of an analyze request; a field is `none` when absent. -/
structure AnalyzeReq where
  agentName : Option String
  transcript : Option String
  notes : Option String

/-- The persisted document: `{calls, scripts}`. -/
structure ServerData where
  calls : List CallRecord
  scripts : List Script

/-- The responses the analyze handler can produce. -/
inductive Resp where
  | serverError (msg : String)
  | badRequest (msg : String)
  | parseError (msg : String) (raw : String)
  | ok (record : CallRecord)
deriving Repr

/-- The HTTP status each response carries. -/
def Resp.status : Resp → Nat
  | .serverError _ => 500
  | .badRequest _ => 400
  | .parseError _ _ => 500
  | .ok _ => 200

/-- `!transcript || !transcript.trim()` (server.js line 135): the
transcript is absent, empty, or whitespace-only. -/
def isBlankTranscript : Option String → Bool
  | none => true
  | some t => t = "" || t.trim = ""

/-- `agentName && agentName.trim().length ? agentName.trim() : "Unknown"`
(server.js lines 131-133). -/
def cleanAgentName : Option String → String
  | none => "Unknown"
  | some a => if a = "" then "Unknown" else if a.trim = "" then "Unknown" else a.trim

/-- `s.active` first, else `data.scripts[0]` (server.js lines 142-143);
`none` when the scripts list is empty (the JS code would then throw on
`activeScript.content` and be caught by the surrounding try). -/
def getActiveScript (scripts : List Script) : Option Script :=
  match scripts.find? (fun s => s.active) with
  | some s => some s
  | none => scripts.head?

/-- The prompt of server.js lines 149-199. The literal template text is
abbreviated to its opening words; nothing below depends on it beyond how
the script content and transcript are embedded. -/
def mkPrompt (scriptContent transcript : String) : String :=
  "You are an expert B2B sales coach for a digital marketing agency" ++
    " -- OFFICIAL CALL SCRIPT -- " ++ scriptContent ++
    " -- transcript -- " ++ transcript ++
    " -- TASK: output STRICT JSON ONLY matching the schema --"

/-- `POST /api/calls/analyze` (server.js lines 119-259) as a function of
the request, the store, and the external collaborators: `configured` is
whether `genAI` exists, `ai` the Gemini completion (`none` = the call
threw), `parse` is `JSON.parse` (`none` = it threw), `now`/`id` the clock
and id source. Returns the response and the resulting store. -/
def analyzeHandler (configured : Bool) (ai : String → Option String)
    (parse : String → Option Json) (now id : String)
    (req : AnalyzeReq) (data : ServerData) : Resp × ServerData :=
  if !configured then
    (.serverError "GEMINI_API_KEY not configured on server", data)
  else
    let cleanAgent := cleanAgentName req.agentName
    if isBlankTranscript req.transcript then
      (.badRequest "Transcript text is required for analysis.", data)
    else
      match getActiveScript data.scripts with
      | none => (.serverError "Internal error analyzing call.", data)
      | some activeScript =>
        let transcript := match req.transcript with | some t => t | none => ""
        match ai (mkPrompt activeScript.content transcript) with
        | none => (.serverError "Internal error analyzing call.", data)
        | some text0 =>
          let text := stripJsonS text0
          match parse text with
          | none => (.parseError "Failed to parse analysis from model." text, data)
          | some analysis =>
            let record := mkCallRecord id now cleanAgent
              (jsOrS req.notes "") transcript analysis
            (.ok record, { data with calls := callsUnshift data.calls record })

theorem nn_repair (o : Option Json) (d : Json) :
    (∀ v, o = some v → v ≠ Json.null → nn o d = v) ∧
    (isNullish o → nn o d = d) := by
  constructor
  · rintro v rfl hv
    cases v <;> first | rfl | exact absurd rfl hv
  · rintro (rfl | rfl) <;> rfl

theorem applyBody_id (b : UpdateBody) (s : Script) : (applyBody b s).id = s.id := by
  unfold applyBody
  cases b.content <;> cases b.name <;> rfl

theorem applyBody_active (b : UpdateBody) (s : Script) :
    (applyBody b s).active = s.active := by
  unfold applyBody
  cases b.content <;> cases b.name <;> rfl

theorem activeCount_deactivateAll (l : List Script) :
    activeCount (deactivateAll l) = 0 := by
  simp [deactivateAll, activeCount, List.filter_map]

theorem putScriptActive_isSome (v : Bool) (b : UpdateBody) (i : String) :
    ∀ scripts, hasId i scripts = true → (putScriptActive v b i scripts).isSome := by
  intro scripts
  induction scripts with
  | nil => simp [hasId]
  | cons s rest ih =>
    intro h
    by_cases hs : s.id = i
    · simp [putScriptActive, hs]
    · have hr : hasId i rest = true := by
        simpa [hasId, hs] using h
      have := ih hr
      rcases hl : putScriptActive v b i rest with _ | l
      · rw [hl] at this; simp at this
      · simp [putScriptActive, hs, hl]

theorem putScriptActive_sound (v : Bool) (b : UpdateBody) (i : String) :
    ∀ scripts l, putScriptActive v b i scripts = some l →
      activeCount l = (if v then 1 else 0) ∧
      ∀ s ∈ l, s.active = true → s.id = i := by
  intro scripts
  induction scripts with
  | nil => intro l h; simp [putScriptActive] at h
  | cons s rest ih =>
    intro l h
    by_cases hs : s.id = i
    · rw [putScriptActive, if_pos hs] at h
      obtain rfl := (Option.some.injEq _ _).mp h
      constructor
      · have h0 : ((deactivateAll rest).filter (fun s => s.active)).length = 0 :=
          activeCount_deactivateAll rest
        cases v <;> simp [activeCount, List.filter_cons, h0]
      · intro x hx hact
        rcases List.mem_cons.mp hx with rfl | hx'
        · simpa [applyBody_id] using hs
        · exfalso
          obtain ⟨y, _, rfl⟩ := List.mem_map.mp hx'
          simp at hact
    · rw [putScriptActive, if_neg hs] at h
      rcases hl : putScriptActive v b i rest with _ | l'
      · rw [hl] at h; exact absurd h (by simp)
      · rw [hl] at h
        obtain rfl := (Option.some.injEq _ _).mp h
        obtain ⟨hc, hm⟩ := ih l' hl
        constructor
        · simpa [activeCount, List.filter_cons] using hc
        · intro x hx hact
          rcases List.mem_cons.mp hx with rfl | hx'
          · simp at hact
          · exact hm x hx' hact

theorem putScriptPlain_activeCount (b : UpdateBody) (i : String) :
    ∀ scripts l, putScriptPlain b i scripts = some l →
      activeCount l = activeCount scripts := by
  intro scripts
  induction scripts with
  | nil => intro l h; simp [putScriptPlain] at h
  | cons s rest ih =>
    intro l h
    by_cases hs : s.id = i
    · rw [putScriptPlain, if_pos hs] at h
      obtain rfl := (Option.some.injEq _ _).mp h
      simp only [activeCount, List.filter_cons, applyBody_active]
      cases hsa : s.active <;> simp [hsa]
    · rw [putScriptPlain, if_neg hs] at h
      rcases hl : putScriptPlain b i rest with _ | l'
      · rw [hl] at h; exact absurd h (by simp)
      · rw [hl] at h
        obtain rfl := (Option.some.injEq _ _).mp h
        have := ih l' hl
        simp [activeCount, List.filter_cons, this]
        cases hsa : s.active <;> simp [activeCount] at this ⊢ <;> omega

/-- C6: for every starting set of scripts and every script id present in
it, a PUT that sets `active = true` on that script deactivates all other
scripts in the same write, so exactly one script (one whose id is the
addressed one) is active afterward; and every update through the endpoint
preserves the at-most-one-active invariant. -/
theorem putScript_activate_exactlyOne :
    (∀ (scripts : List Script) (i : String) (b : UpdateBody),
      b.active = some true → hasId i scripts = true →
      ∃ l, putScript scripts i b = some l ∧ activeCount l = 1 ∧
        ∀ s ∈ l, s.active = true → s.id = i) ∧
    (∀ (scripts : List Script) (i : String) (b : UpdateBody) (l : List Script),
      activeCount scripts ≤ 1 → putScript scripts i b = some l →
      activeCount l ≤ 1) := by
  constructor
  · intro scripts i b hb hid
    have hsome := putScriptActive_isSome true b i scripts hid
    rcases hl : putScriptActive true b i scripts with _ | l
    · rw [hl] at hsome; simp at hsome
    · obtain ⟨hc, hm⟩ := putScriptActive_sound true b i scripts l hl
      exact ⟨l, by simp [putScript, hb, hl], by simpa using hc, hm⟩
  · intro scripts i b l hle h
    rcases hba : b.active with _ | v
    · rw [putScript, hba] at h
      rw [putScriptPlain_activeCount b i scripts l h]
      exact hle
    · rw [putScript, hba] at h
      have := (putScriptActive_sound v b i scripts l h).1
      rw [this]
      cases v <;> simp

/-- C10: in the persisted variant, a PUT with body carrying `active: false`
for a present script id deactivates every script in the store, leaving zero
active scripts. -/
theorem putScript_activeFalse_deactivatesAll
    (scripts : List Script) (i : String) (b : UpdateBody)
    (hb : b.active = some false) (hid : hasId i scripts = true) :
    ∃ l, putScript scripts i b = some l ∧ activeCount l = 0 ∧
      ∀ s ∈ l, s.active = false := by
  have hsome := putScriptActive_isSome false b i scripts hid
  rcases hl : putScriptActive false b i scripts with _ | l
  · rw [hl] at hsome; simp at hsome
  · obtain ⟨hc, _⟩ := putScriptActive_sound false b i scripts l hl
    simp only [if_neg Bool.false_ne_true, if_false] at hc
    refine ⟨l, by simp [putScript, hb, hl], by simpa using hc, ?_⟩
    intro s hs
    have hnil : l.filter (fun s => s.active) = [] :=
      List.length_eq_zero.mp (by simpa [activeCount] using hc)
    have := List.filter_eq_nil_iff.mp hnil s hs
    simpa using this

/-- C10 witness: deactivating script "b" in a two-script store where both
are active zeroes every active flag. -/
theorem putScript_activeFalse_witness :
    ∃ l, putScript [⟨"a", "A", true, "x"⟩, ⟨"b", "B", true, "y"⟩] "b"
        ⟨none, none, some false⟩ = some l ∧ activeCount l = 0 ∧
      ∀ s ∈ l, s.active = false :=
  putScript_activeFalse_deactivatesAll _ "b" _ rfl (by decide)

/-- C7: the call store keeps newest-first ordering: appending R1 then R2
yields getAll = [R2, R1, ...prior contents in order]. -/
theorem store_newestFirst {α : Type} (calls : List α) (r1 r2 : α) :
    getCalls (callsUnshift (callsUnshift calls r1) r2) = r2 :: r1 :: calls := rfl

/-- C8: a configured analyze endpoint rejects an absent, empty or
whitespace-only transcript with a 400 and its descriptive message, leaves
the store unchanged, and never reaches the AI call (the result is the same
for every completion function `ai`). -/
theorem analyze_blankTranscript_rejected (ai : String → Option String)
    (parse : String → Option Json) (now id : String)
    (req : AnalyzeReq) (data : ServerData)
    (hb : isBlankTranscript req.transcript = true) :
    analyzeHandler true ai parse now id req data
        = (.badRequest "Transcript text is required for analysis.", data) ∧
    (analyzeHandler true ai parse now id req data).1.status = 400 := by
  constructor <;> simp [analyzeHandler, hb, Resp.status]

/-- C8 witness: an all-empty request against an empty store. -/
theorem analyze_blankTranscript_witness :
    analyzeHandler true (fun _ => none) (fun _ => none) "" ""
        ⟨none, none, none⟩ ⟨[], []⟩
      = (.badRequest "Transcript text is required for analysis.", ⟨[], []⟩) :=
  (analyze_blankTranscript_rejected (fun _ => none) (fun _ => none) "" ""
    ⟨none, none, none⟩ ⟨[], []⟩ rfl).1

/-- C1 (amended): when the AI response parses to a (truthy) object, repair
is per-field and nullish-based: every expected schema field takes the
parsed value when it is present and non-null, and falls back for that
single field when it is absent or null (the source type-checks only
`scriptAdherencePercent`); in particular, an object missing exactly one
field keeps every other parsed value exactly. -/
theorem fieldRepair_perField (name : String) (hname : name ∈ normJsonFields)
    (fs : List (String × Json)) (t : String) :
    (∀ v, (Json.obj fs).get name = some v → v ≠ Json.null →
      (analyzeWithGemini (some (.obj fs)) t).fieldVal name = some v) ∧
    (isNullish ((Json.obj fs).get name) →
      (analyzeWithGemini (some (.obj fs)) t).fieldVal name
        = fallback.fieldVal name) := by
  fin_cases hname <;>
    exact ⟨fun v hg hv => congrArg some ((nn_repair _ _).1 v hg hv),
           fun hnul => congrArg some ((nn_repair _ _).2 hnul)⟩

/-- C1 witness: a parsed `qualityScore: 92` is kept verbatim. -/
theorem fieldRepair_perField_witness :
    (analyzeWithGemini (some (.obj [("qualityScore", .num 92)])) "t").fieldVal
        "qualityScore" = some (.num 92) :=
  (fieldRepair_perField "qualityScore" (by decide)
    [("qualityScore", .num 92)] "t").1 (.num 92) rfl (by simp)

/-- C1 counterexample: a `qualityScore` present with the wrong type (a
string where a number is expected) is passed through by `??`, not replaced
by the fallback value as the claim states. -/
theorem fieldRepair_typeCheck_cex :
    (analyzeWithGemini (some (.obj [("qualityScore", .str "high")])) "t").qualityScore
        = .str "high" ∧
    Json.str "high" ≠ fallback.qualityScore :=
  ⟨rfl, by simp [fallback]⟩

/-- C2: the stored `scriptAdherence` equals `scriptAdherencePercent / 100`
whenever the parsed response carries that field as a number in [0, 100];
when it is absent or non-numeric the stored value equals the fallback ratio
exactly (the code rescales `100 * fallback.scriptAdherence` back down, with
no net double conversion). -/
theorem scriptAdherence_ratio (fs : List (String × Json)) (t : String) :
    (∀ q : ℚ, (Json.obj fs).get "scriptAdherencePercent" = some (.num q) →
      0 ≤ q → q ≤ 100 →
      (analyzeWithGemini (some (.obj fs)) t).scriptAdherence = q / 100) ∧
    ((∀ q : ℚ, (Json.obj fs).get "scriptAdherencePercent" ≠ some (.num q)) →
      (analyzeWithGemini (some (.obj fs)) t).scriptAdherence
        = fallback.scriptAdherence) := by
  constructor
  · intro q hg _ _
    show (match (Json.obj fs).get "scriptAdherencePercent" with
          | some (.num q) => q
          | _ => 100 * fallback.scriptAdherence) / 100 = q / 100
    rw [hg]
  · intro h
    show (match (Json.obj fs).get "scriptAdherencePercent" with
          | some (.num q) => q
          | _ => 100 * fallback.scriptAdherence) / 100 = fallback.scriptAdherence
    rcases hget : (Json.obj fs).get "scriptAdherencePercent" with _ | v
    · exact mul_div_cancel_left₀ _ (by norm_num)
    · cases v with
      | num q => exact absurd hget (h q)
      | null => exact mul_div_cancel_left₀ _ (by norm_num)
      | bool b => exact mul_div_cancel_left₀ _ (by norm_num)
      | str s => exact mul_div_cancel_left₀ _ (by norm_num)
      | arr xs => exact mul_div_cancel_left₀ _ (by norm_num)
      | obj gs => exact mul_div_cancel_left₀ _ (by norm_num)

/-- C3: on any response text whose parse failed (the abstract
`safeParse` returned the `null` stand-in), the normalizer returns the
fallback record verbatim with the raw text attached in `raw`, never a
partially parsed record, and without raising. -/
theorem parseFailure_fallback (safeParse : String → Option Json) (text : String)
    (h : safeParse text = none) :
    analyzeWithGemini (safeParse text) text = { fallback with raw := some text } := by
  rw [h]; rfl

/-- C3 witness: the always-failing parse on the empty string. -/
theorem parseFailure_fallback_witness :
    analyzeWithGemini ((fun _ => none) "") "" = { fallback with raw := some "" } :=
  parseFailure_fallback (fun _ => none) "" rfl

/-- C5: in the variants where sentiment is derived rather than AI-supplied,
it is a pure function of the quality score with fixed thresholds: Positive
iff the score is at least 85, Neutral iff at least 75 and below 85, Needs
Improvement iff below 75; the JSON-side chain of part_000 agrees on numeric
scores. -/
theorem deriveSentiment_thresholds (q : ℚ) :
    (deriveSentiment q = "Positive" ↔ 85 ≤ q) ∧
    (deriveSentiment q = "Neutral" ↔ 75 ≤ q ∧ q < 85) ∧
    (deriveSentiment q = "Needs Improvement" ↔ q < 75) ∧
    deriveSentimentJ (Json.num q) = deriveSentiment q := by
  have hJ : deriveSentimentJ (Json.num q) = deriveSentiment q := by
    simp [deriveSentimentJ, deriveSentiment, jsGE]
  refine ⟨?_, ?_, ?_, hJ⟩ <;>
      unfold deriveSentiment <;> split_ifs with h1 h2 <;> simp <;>
    first
      | linarith
      | (intro h3; linarith)
      | (exact ⟨h2, by linarith⟩)

/-- C9 (amended): in the derived-sentiment variant (part_000's /upload),
every stored record's sentiment lies in the enum for every AI response
shape, including responses with the field absent; in the server.js variant
the sentiment is passed through and defaults to "Unknown" when absent,
which can fall outside the enum. -/
theorem sentiment_enum_amended :
    (∀ (nCalls : Nat) (agentName notes transcript file : Option String)
        (now text : String) (parsed : Option Json),
      (mkUploadRecord nCalls agentName notes transcript file now
          (analyzeWithGemini parsed text)).sentiment = "Positive" ∨
      (mkUploadRecord nCalls agentName notes transcript file now
          (analyzeWithGemini parsed text)).sentiment = "Neutral" ∨
      (mkUploadRecord nCalls agentName notes transcript file now
          (analyzeWithGemini parsed text)).sentiment = "Needs Improvement") ∧
    (∀ (id now agent notes transcript : String) (analysis : Json),
      analysis.get "sentiment" = none →
      (mkCallRecord id now agent notes transcript analysis).sentiment
        = Json.str "Unknown") := by
  constructor
  · intro nCalls agentName notes transcript file now text parsed
    show deriveSentimentJ _ = _ ∨ deriveSentimentJ _ = _ ∨ deriveSentimentJ _ = _
    unfold deriveSentimentJ
    split_ifs <;> simp
  · intro id now agent notes transcript analysis h
    show jsOr (analysis.get "sentiment") (.str "Unknown") = Json.str "Unknown"
    rw [h]
    rfl

/-- C9 counterexample: the server.js record built from an empty analysis
object stores sentiment "Unknown", outside the enum of the claim. -/
theorem sentiment_enum_cex :
    (mkCallRecord "1" "now" "Unknown" "" "t" (Json.obj [])).sentiment
        = Json.str "Unknown" ∧
    Json.str "Unknown" ≠ Json.str "Positive" ∧
    Json.str "Unknown" ≠ Json.str "Neutral" ∧
    Json.str "Unknown" ≠ Json.str "Needs Improvement" ∧
    Json.str "Unknown" ≠ Json.str "Negative" := by
  refine ⟨rfl, ?_, ?_, ?_, ?_⟩ <;> simp


theorem matchPat_drop (pat : CPat) :
    ∀ (s r : List Char), matchPat pat s = some r → r = s.drop pat.length := by
  induction pat with
  | nil => intro s r h; simpa [matchPat] using h.symm
  | cons cl p ih =>
    intro s r h
    cases s with
    | nil => simp [matchPat] at h
    | cons c t =>
      rw [matchPat] at h
      by_cases hc : c ∈ cl
      · rw [if_pos hc] at h
        simpa using ih t r h
      · rw [if_neg hc] at h
        exact absurd h (by simp)

theorem matchPat_append (p q : CPat) :
    ∀ (s r : List Char), matchPat (p ++ q) s = some r →
      ∃ m, matchPat p s = some m ∧ matchPat q m = some r := by
  induction p with
  | nil => intro s r h; exact ⟨s, rfl, h⟩
  | cons cl p ih =>
    intro s r h
    cases s with
    | nil => simp [matchPat] at h
    | cons c t =>
      rw [List.cons_append, matchPat] at h
      by_cases hc : c ∈ cl
      · rw [if_pos hc] at h
        obtain ⟨m, hm1, hm2⟩ := ih t r h
        exact ⟨m, by rw [matchPat, if_pos hc]; exact hm1, hm2⟩
      · rw [if_neg hc] at h
        exact absurd h (by simp)

theorem removeAll_nil (pat : CPat) : removeAll pat [] = [] := by
  rw [removeAll.eq_def]

theorem removeAll_cons_nomatch (pat : CPat) (c : Char) (t : List Char)
    (h : matchPat pat (c :: t) = none) :
    removeAll pat (c :: t) = c :: removeAll pat t := by
  cases pat with
  | nil => simp [matchPat] at h
  | cons cl p =>
    rw [removeAll.eq_def]
    simp [h]

theorem removeAll_cons_match (cl : List Char) (p : CPat) (c : Char)
    (t r : List Char) (h : matchPat (cl :: p) (c :: t) = some r) :
    removeAll (cl :: p) (c :: t) = removeAll (cl :: p) r := by
  have hr : r = t.drop p.length := by
    simpa using matchPat_drop (cl :: p) (c :: t) r h
  rw [removeAll.eq_def]
  simp [h, hr]

theorem hasMatch_iff (pat : CPat) :
    ∀ s : List Char, hasMatch pat s = true ↔
      ∃ t r, t <:+ s ∧ matchPat pat t = some r := by
  intro s
  induction s with
  | nil =>
    simp [hasMatch, Option.isSome_iff_exists, List.suffix_nil]
  | cons c t ih =>
    rw [hasMatch]
    simp only [Bool.or_eq_true, ih, Option.isSome_iff_exists, List.suffix_cons_iff]
    constructor
    · rintro (⟨r, hr⟩ | ⟨t', r, hsuf, hm⟩)
      · exact ⟨c :: t, r, Or.inl rfl, hr⟩
      · exact ⟨t', r, Or.inr hsuf, hm⟩
    · rintro ⟨t', r, rfl | hsuf, hm⟩
      · exact Or.inl ⟨r, hm⟩
      · exact Or.inr ⟨t', r, hsuf, hm⟩

theorem removeAll_no_match (pat : CPat) :
    ∀ s : List Char, hasMatch pat s = false → removeAll pat s = s := by
  intro s
  induction s with
  | nil => intro _; exact removeAll_nil pat
  | cons c t ih =>
    intro h
    rw [hasMatch] at h
    have h1 : matchPat pat (c :: t) = none := by
      rcases hm : matchPat pat (c :: t) with _ | r
      · rfl
      · rw [hm] at h; simp at h
    have h2 : hasMatch pat t = false := by
      rw [h1] at h
      simpa using h
    rw [removeAll_cons_nomatch pat c t h1, ih h2]

theorem matchPat_fencePat (s r : List Char) :
    matchPat fencePat s = some r ↔ s = btk :: btk :: btk :: r := by
  rcases s with _ | ⟨a, _ | ⟨b, _ | ⟨c, t⟩⟩⟩ <;>
    simp only [fencePat, matchPat, List.mem_singleton]
  · simp
  · split_ifs <;> simp
  · split_ifs <;> simp_all
  · split_ifs with h1 h2 h3 <;> simp_all



theorem removeAll_cons_match' (pat : CPat) (hne : pat ≠ []) (c : Char)
    (t r : List Char) (h : matchPat pat (c :: t) = some r) :
    removeAll pat (c :: t) = removeAll pat r := by
  cases pat with
  | nil => exact absurd rfl hne
  | cons cl p => exact removeAll_cons_match cl p c t r h

theorem removeAll_fence_structure :
    ∀ (n : ℕ) (s : List Char), s.length ≤ n →
      ¬ [btk, btk, btk] <:+: removeAll fencePat s ∧
      ([btk, btk] <+: removeAll fencePat s → [btk, btk] <+: s) ∧
      ([btk] <+: removeAll fencePat s → [btk] <+: s) := by
  intro n
  induction n with
  | zero =>
    intro s hs
    obtain rfl : s = [] := List.length_eq_zero.mp (Nat.le_zero.mp hs)
    rw [removeAll_nil]
    exact ⟨by simp, fun h => h, fun h => h⟩
  | succ n ih =>
    intro s hs
    cases s with
    | nil =>
      rw [removeAll_nil]
      exact ⟨by simp, fun h => h, fun h => h⟩
    | cons c t =>
      rcases hm : matchPat fencePat (c :: t) with _ | r
      · rw [removeAll_cons_nomatch _ _ _ hm]
        obtain ⟨ih1, ih2, ih3⟩ := ih t (by simp at hs; omega)
        refine ⟨?_, ?_, ?_⟩
        · intro hinf
          rcases List.infix_cons_iff.mp hinf with hpre | hinf'
          · rw [show ([btk, btk, btk] : List Char) = btk :: [btk, btk] from rfl,
              List.cons_prefix_cons] at hpre
            obtain ⟨hcb, hpre2⟩ := hpre
            have hbb : [btk, btk] <+: t := ih2 hpre2
            obtain ⟨t', rfl⟩ := hbb
            have hsome : matchPat fencePat (c :: ([btk, btk] ++ t')) = some t' :=
              (matchPat_fencePat _ _).mpr (by rw [← hcb]; rfl)
            rw [hm] at hsome
            exact absurd hsome (by simp)
          · exact ih1 hinf'
        · intro hpre
          rw [show ([btk, btk] : List Char) = btk :: [btk] from rfl,
            List.cons_prefix_cons] at hpre ⊢
          exact ⟨hpre.1, ih3 hpre.2⟩
        · intro hpre
          rw [show ([btk] : List Char) = btk :: [] from rfl,
            List.cons_prefix_cons] at hpre ⊢
          exact ⟨hpre.1, by simp⟩
      · have hshape := (matchPat_fencePat _ _).mp hm
        obtain ⟨rfl, rfl⟩ := List.cons.inj hshape
        rw [removeAll_cons_match' fencePat (by simp [fencePat]) _ _ _ hm]
        obtain ⟨ih1, ih2, ih3⟩ := ih r (by simp at hs; omega)
        refine ⟨ih1, fun _ => ?_, fun _ => ?_⟩
        · exact ⟨btk :: r, rfl⟩
        · exact ⟨btk :: btk :: r, rfl⟩



theorem dropWhile_eq_cons_not (p : Char → Bool) :
    ∀ (l : List Char) (c : Char) (t : List Char),
      List.dropWhile p l = c :: t → p c = false := by
  intro l
  induction l with
  | nil => intro c t h; simp at h
  | cons a l ih =>
    intro c t h
    by_cases hp : p a
    · rw [List.dropWhile_cons_of_pos hp] at h
      exact ih c t h
    · rw [List.dropWhile_cons_of_neg hp] at h
      obtain ⟨rfl, -⟩ := List.cons.inj h
      simpa using hp

theorem trimChars_eq_rdrop (s : List Char) :
    trimChars s = List.rdropWhile Char.isWhitespace
      (List.dropWhile Char.isWhitespace s) := rfl

theorem trimChars_infix (s : List Char) : trimChars s <:+: s := by
  rw [trimChars_eq_rdrop]
  exact (List.rdropWhile_prefix _ _).isInfix.trans (List.dropWhile_suffix _).isInfix

theorem dropWhile_rdropWhile_dropWhile (p : Char → Bool) (s : List Char) :
    List.dropWhile p (List.rdropWhile p (List.dropWhile p s))
      = List.rdropWhile p (List.dropWhile p s) := by
  rcases hr : List.rdropWhile p (List.dropWhile p s) with _ | ⟨c, t⟩
  · simp
  · have hpre := List.rdropWhile_prefix p (List.dropWhile p s)
    rw [hr] at hpre
    obtain ⟨t', hyt⟩ := hpre
    have h' : List.dropWhile p s = c :: (t ++ t') := by rw [← hyt]; rfl
    have hc : p c = false := dropWhile_eq_cons_not p s c (t ++ t') h'
    rw [List.dropWhile_cons_of_neg (by simp [hc])]

theorem trimChars_idem (s : List Char) : trimChars (trimChars s) = trimChars s := by
  rw [trimChars_eq_rdrop, trimChars_eq_rdrop,
    dropWhile_rdropWhile_dropWhile, List.rdropWhile_idempotent]

theorem hasMatch_fenceJson_false (s : List Char) (h : hasFence s = false) :
    hasMatch fenceJsonPat s = false := by
  by_contra hc
  have hT : hasMatch fenceJsonPat s = true := by simpa using hc
  obtain ⟨t, r, hsuf, hm⟩ := (hasMatch_iff _ s).mp hT
  obtain ⟨m, hm1, -⟩ := matchPat_append fencePat jsonTagPat t r hm
  have hF : hasFence s = true := (hasMatch_iff _ s).mpr ⟨t, m, hsuf, hm1⟩
  rw [hF] at h
  exact absurd h (by simp)

theorem strip_noFence (s : List Char) (h : hasFence s = false) :
    stripJson s = trimChars s := by
  unfold stripJson
  rw [removeAll_no_match _ _ (hasMatch_fenceJson_false s h),
    removeAll_no_match _ _ h]

theorem stripJson_noFenceAfter (s : List Char) :
    hasFence (stripJson s) = false := by
  have h1 := (removeAll_fence_structure (removeAll fenceJsonPat s).length
      (removeAll fenceJsonPat s) le_rfl).1
  have h2 : stripJson s <:+: removeAll fencePat (removeAll fenceJsonPat s) :=
    trimChars_infix _
  by_contra hc
  have hT : hasFence (stripJson s) = true := by simpa using hc
  obtain ⟨t, r, hsuf, hmat⟩ := (hasMatch_iff fencePat _).mp hT
  have hpre : [btk, btk, btk] <+: t := by
    rw [(matchPat_fencePat t r).mp hmat]
    exact ⟨r, rfl⟩
  have hinf : [btk, btk, btk] <:+: stripJson s :=
    List.infix_iff_prefix_suffix.mpr ⟨t, hpre, hsuf⟩
  exact h1 (hinf.trans h2)

theorem stripJson_idem (s : List Char) : stripJson (stripJson s) = stripJson s := by
  rw [strip_noFence _ (stripJson_noFenceAfter s)]
  unfold stripJson
  exact trimChars_idem _

/-- C4 (amended): fence-stripping is idempotent and tolerant of an absent
fence (the replaces are no-ops then, and the match is case-insensitive on
the json tag by construction of `fenceJsonPat`); a text with no code fence
is returned trimmed of leading/trailing whitespace — unchanged exactly when
it already has none. -/
theorem stripJson_idem_and_unfenced (s : List Char) :
    stripJson (stripJson s) = stripJson s ∧
    (hasFence s = false → stripJson s = trimChars s) ∧
    (hasFence s = false → trimChars s = s → stripJson s = s) := by
  refine ⟨stripJson_idem s, fun h => strip_noFence s h, fun h ht => ?_⟩
  rw [strip_noFence s h, ht]

/-- C4 counterexample: a fence-free text with surrounding whitespace is
not returned unchanged — `trim()` always runs. -/
theorem stripJson_unfenced_cex :
    hasFence (' ' :: 'a' :: [' ']) = false ∧
    stripJson (' ' :: 'a' :: [' ']) ≠ ' ' :: 'a' :: [' '] := by
  refine ⟨by decide, ?_⟩
  rw [strip_noFence _ (by decide)]
  decide


end CallCoach
